import Mathlib

set_option maxRecDepth 10000

/-!
Shallow embedding of the espanso expansion engine (`src/engine.rs`) and the
shell extension (`src/extension/shell.rs`).

Strings are modelled as `List Char` (Rust iterates `chars()`; every pattern
the engine searches for — `"\r\n"`, `"$|$"`, `"$N"`/`"%N"` — is ASCII, so
Rust's byte indices coincide, position for position, with char indices and
the char-level model is exact). Side effects (keyboard, clipboard, UI,
logging, sleeping) are recorded as an explicit trace of `Effect`s in the
order the Rust code performs them. `SystemTime` instants are `Nat`
milliseconds.
-/

namespace Espanso

/-- `BackendType` from `config`: the two injection backends. -/
inductive BackendType where
  | Inject
  | Clipboard
deriving DecidableEq, Repr

/-- The config options the engine reads (`config` crate, consumed by
`engine.rs`). `paste_shortcut` is carried opaquely into `trigger_paste`. -/
structure Config where
  backend : BackendType
  enable_active : Bool
  enable_passive : Bool
  preserve_clipboard : Bool
  paste_shortcut : List Char
  action_noop_interval : Nat
  restore_clipboard_delay : Nat
deriving DecidableEq, Repr

/-- The part of `matcher::Match` the engine reads directly: `m.trigger`.
The rest of the match is only forwarded to the abstract renderer. -/
structure Match where
  trigger : List Char
deriving DecidableEq, Repr

/-- `render::RenderResult`. -/
inductive RenderResult where
  | Text (s : List Char)
  | Image (path : List Char)
  | Error
deriving DecidableEq, Repr

/-- `event::ActionType` (variants used by `engine.rs`). -/
inductive ActionType where
  | IconClick
  | Exit
  | Toggle
deriving DecidableEq, Repr

/-- Modelled from the spec: tray item IDs are stable small integers mapped
back to action kinds (`ActionType as i32` in `build_menu`); the enum's
numeric values live in `event.rs`, outside the provided sources, so
distinct small integers are assigned here. -/
def ActionType.toId : ActionType → Int
  | .Toggle => 1
  | .Exit => 2
  | .IconClick => 3

/-- `ui::MenuItemType`. -/
inductive MenuItemType where
  | Button
  | Separator
deriving DecidableEq, Repr

/-- `ui::MenuItem`. -/
structure MenuItem where
  item_type : MenuItemType
  item_name : List Char
  item_id : Int
deriving DecidableEq, Repr

/-- One observable side effect, in the order the engine performs them:
calls on the keyboard manager, the clipboard manager, the UI manager,
log records and sleeps. -/
inductive Effect where
  | deleteString (count : Nat)
  | sendString (s : List Char)
  | sendEnter
  | moveCursorLeft (moves : Nat)
  | triggerPaste (shortcut : List Char)
  | triggerCopy
  | getClipboard
  | setClipboard (s : List Char)
  | setClipboardImage (path : List Char)
  | sleep (ms : Nat)
  | logError
  | logWarn
  | logInfo
  | notify (msg : List Char)
  | showMenu (menu : List MenuItem)
  | cleanup
  | exitProcess
deriving DecidableEq, Repr

/-! ### String helpers from `on_match`

`target_string.replace("\r\n", "\n")`, `target_string.find("$|$")` and
`target_string.replace("$|$", "")`: Rust's `str::replace` substitutes the
leftmost-first non-overlapping occurrences, and `find` returns the byte
index of the first occurrence (converted to a char index by counting the
chars of the byte prefix — identical to the char position here, the
patterns being ASCII). They are specialised to their fixed patterns so
that they compute by structural recursion. -/

/-- `target_string.replace("\r\n", "\n")` (engine.rs line 192): scan left
to right; wherever the next two chars are `'\r','\n'`, emit `'\n'` and
skip both. -/
def replaceCRLF : List Char → List Char
  | [] => []
  | [c] => [c]
  | c :: d :: rest =>
    if c = '\r' ∧ d = '\n' then '\n' :: replaceCRLF rest
    else c :: replaceCRLF (d :: rest)

/-- Char index of the first occurrence of `"$|$"`
(`target_string.find("$|$")` at engine.rs line 195, byte index, followed by
the char count of the byte prefix at lines 198–199). -/
def findHint : List Char → Option Nat
  | [] => none
  | [_] => none
  | [_, _] => none
  | c :: d :: e :: rest =>
    if c = '$' ∧ d = '|' ∧ e = '$' then some 0
    else (findHint (d :: e :: rest)).map (· + 1)

/-- `target_string.replace("$|$", "")` (engine.rs line 203): removes every
(leftmost-first, non-overlapping) occurrence. -/
def removeHint : List Char → List Char
  | [] => []
  | [c] => [c]
  | [c, d] => [c, d]
  | c :: d :: e :: rest =>
    if c = '$' ∧ d = '|' ∧ e = '$' then removeHint rest
    else c :: removeHint (d :: e :: rest)

/-- Number of leftmost-first non-overlapping `"$|$"` occurrences (the ones
`str::replace` substitutes). -/
def countHint : List Char → Nat
  | [] => 0
  | [_] => 0
  | [_, _] => 0
  | c :: d :: e :: rest =>
    if c = '$' ∧ d = '|' ∧ e = '$' then countHint rest + 1
    else countHint (d :: e :: rest)

/-- `"\r\n"` occurs as a substring (for reasoning about `replaceCRLF`). -/
def hasCRLF : List Char → Bool
  | [] => false
  | [_] => false
  | c :: d :: rest => (decide (c = '\r' ∧ d = '\n')) || hasCRLF (d :: rest)

/-- `"\r\r\n"` occurs as a substring. -/
def hasCRCRLF : List Char → Bool
  | [] => false
  | [_] => false
  | [_, _] => false
  | c :: d :: e :: rest =>
    (decide (c = '\r' ∧ d = '\r' ∧ e = '\n')) || hasCRCRLF (d :: e :: rest)

/-! ### Engine operations (`engine.rs`)

The `Engine` holds `enabled : bool`, `last_action_time : SystemTime` and the
copied `action_noop_interval`. Each operation below takes the pieces of
engine state it touches, the configs (`active_config()` and
`default_config()`), the current instant `now` (what `SystemTime::now()`
returns during the call), and — for the collaborators the engine queries —
the value the collaborator would return (the renderer's `RenderResult`,
the clipboard manager's `get_clipboard()` content). Each returns the
effect trace plus the updated state. -/

/-- `check_last_action_and_set` (engine.rs lines 129–139): blocks (returns
`true`, leaving `last_action_time` unchanged) when `last_action_time.elapsed()`
is `Ok` (i.e. `last ≤ now`) and below `interval`; otherwise stores `now`
and returns `false`. Result: `(blocked, new last_action_time)`. -/
def check_last_action_and_set (last now interval : Nat) : Bool × Nat :=
  if last ≤ now ∧ now - last < interval then
    (true, last)
  else
    (false, now)

/-- `return_content_if_preserve_clipboard_is_enabled` (engine.rs lines
114–125): reads `default_config().preserve_clipboard`; when set, queries
`get_clipboard()` and forwards its content unchanged. Result:
`(previous_clipboard_content, effects)`. -/
def return_content_if_preserve_clipboard_is_enabled
    (defaultPreserve : Bool) (clipboardContent : Option (List Char)) :
    Option (List Char) × List Effect :=
  if defaultPreserve then
    (clipboardContent, [Effect.getClipboard])
  else
    (none, [])

/-- `build_menu` (engine.rs lines 88–112). -/
def build_menu (enabled : Bool) : List MenuItem :=
  [ { item_type := MenuItemType.Button,
      item_name := if enabled then "Disable".toList else "Enable".toList,
      item_id := ActionType.toId ActionType.Toggle },
    { item_type := MenuItemType.Separator, item_name := [], item_id := 999 },
    { item_type := MenuItemType.Button, item_name := "Exit".toList,
      item_id := ActionType.toId ActionType.Exit } ]

/-- The `BackendType::Inject` arm of `on_match` (engine.rs lines 214–231):
on linux a single `send_string`; elsewhere the string is split on `'\n'`
and an `send_enter` is emitted between consecutive segments. -/
def injectEffects (osLinux : Bool) (ts : List Char) : List Effect :=
  if osLinux then
    [Effect.sendString ts]
  else
    match ts.splitOn '\n' with
    | [] => []
    | p :: rest => Effect.sendString p ::
        rest.flatMap (fun q => [Effect.sendEnter, Effect.sendString q])

/-- Cursor-hint processing inside the `Text` arm of `on_match` (engine.rs
lines 194–211): find the first `"$|$"`, count the chars before it and the
total char count, strip every `"$|$"`, and compute
`moves = total_size - char_index - 3`. Result: the string to inject and
the rewind move count, if any. -/
def processCursorHint (ts : List Char) : List Char × Option Nat :=
  match findHint ts with
  | some charIndex => (removeHint ts, some (ts.length - charIndex - 3))
  | none => (ts, none)

/-- `on_match` (engine.rs lines 155–273). Arguments: the active and
default configs, the engine's `action_noop_interval` copy, the current
`last_action_time` and `now`, the match and trailing separator, the value
`render_match` returns, the value `get_clipboard()` would return, and
whether the target OS is linux. Result: `(effects, new last_action_time)`. -/
def on_match (active dflt : Config) (noopInterval last now : Nat)
    (m : Match) (trailing_separator : Option Char) (rendered : RenderResult)
    (clipboardContent : Option (List Char)) (osLinux : Bool) :
    List Effect × Nat :=
  if !active.enable_active then ([], last)
  else
    let guarded := check_last_action_and_set last now noopInterval
    if guarded.1 then ([], guarded.2)
    else
      let char_count :=
        if trailing_separator.isNone then m.trigger.length
        else m.trigger.length + 1
      let deleteEffs := [Effect.deleteString char_count]
      match rendered with
      | RenderResult.Text ts0 =>
        let ts1 :=
          match trailing_separator with
          | some sep => if sep = '\r' then ts0 ++ ['\n'] else ts0 ++ [sep]
          | none => ts0
        let ts2 := replaceCRLF ts1
        let hinted := processCursorHint ts2
        let saved :=
          match active.backend with
          | BackendType.Inject => (none, injectEffects osLinux hinted.1)
          | BackendType.Clipboard =>
            let pc := return_content_if_preserve_clipboard_is_enabled
              dflt.preserve_clipboard clipboardContent
            (pc.1, pc.2 ++ [Effect.setClipboard hinted.1,
                            Effect.triggerPaste active.paste_shortcut])
        let rewindEffs :=
          match hinted.2 with
          | some moves => [Effect.moveCursorLeft moves]
          | none => []
        let restoreEffs :=
          match saved.1 with
          | some prev => [Effect.sleep active.restore_clipboard_delay,
                          Effect.setClipboard prev]
          | none => []
        (deleteEffs ++ saved.2 ++ rewindEffs ++ restoreEffs, guarded.2)
      | RenderResult.Image path =>
        let pc := return_content_if_preserve_clipboard_is_enabled
          dflt.preserve_clipboard clipboardContent
        let restoreEffs :=
          match pc.1 with
          | some prev => [Effect.sleep active.restore_clipboard_delay,
                          Effect.setClipboard prev]
          | none => []
        (deleteEffs ++ pc.2 ++ [Effect.setClipboardImage path,
            Effect.triggerPaste active.paste_shortcut] ++ restoreEffs,
         guarded.2)
      | RenderResult.Error => (deleteEffs ++ [Effect.logError], guarded.2)

/-- `on_enable_update` (engine.rs lines 275–293). Result:
`(new enabled, effects, new last_action_time)`. -/
def on_enable_update (enabled : Bool) (status : Bool)
    (noopInterval last now : Nat) : Bool × List Effect × Nat :=
  let guarded := check_last_action_and_set last now noopInterval
  if guarded.1 then (enabled, [], guarded.2)
  else
    let message :=
      if status then "espanso enabled".toList else "espanso disabled".toList
    (status, [Effect.logInfo, Effect.notify message], guarded.2)

/-- `on_passive` (engine.rs lines 295–332): self-echo guard first, then the
`enable_passive` gate, then copy / sleep / read clipboard / render / paste
back. Result: `(effects, new last_action_time)`. -/
def on_passive (active : Config) (noopInterval last now : Nat)
    (clipboardContent : Option (List Char)) (renderedPassive : RenderResult) :
    List Effect × Nat :=
  let guarded := check_last_action_and_set last now noopInterval
  if guarded.1 then ([], guarded.2)
  else if !active.enable_passive then ([], guarded.2)
  else
    let preEffs := [Effect.logInfo, Effect.triggerCopy, Effect.sleep 100,
                    Effect.getClipboard]
    match clipboardContent with
    | none => (preEffs, guarded.2)
    | some _ =>
      match renderedPassive with
      | RenderResult.Text payload =>
        (preEffs ++ [Effect.setClipboard payload, Effect.sleep 100,
                     Effect.triggerPaste active.paste_shortcut], guarded.2)
      | _ => (preEffs ++ [Effect.logWarn], guarded.2)

/-- `on_action_event` (engine.rs lines 344–356): `IconClick` shows the
menu, `Exit` cleans up and exits; every other kind (`Toggle` included)
falls into the `_ => {}` arm. Result: `(new enabled, effects)`. -/
def on_action_event (enabled : Bool) (e : ActionType) : Bool × List Effect :=
  match e with
  | ActionType.IconClick => (enabled, [Effect.showMenu (build_menu enabled)])
  | ActionType.Exit => (enabled, [Effect.logInfo, Effect.cleanup,
                                  Effect.exitProcess])
  | _ => (enabled, [])

/-- Text-clipboard state after running an effect trace: `set_clipboard`
stores its payload, `set_clipboard_image` displaces any text content,
everything else leaves the clipboard alone. -/
def runClipboard : Option (List Char) → List Effect → Option (List Char)
  | st, [] => st
  | _, Effect.setClipboard s :: rest => runClipboard (some s) rest
  | _, Effect.setClipboardImage _ :: rest => runClipboard none rest
  | st, _ :: rest => runClipboard st rest

/-! ### Shell extension (`extension/shell.rs`)

`POS_ARG_REGEX` is `%(?P<pos>\d+)` on windows and `$(?P<pos>\d+)`
elsewhere: a marker character followed by one or more decimal digits,
greedy, substituted leftmost-first by `replace_all`. The `regex` crate
compiles `\d` in its default Unicode mode, where it denotes the decimal
digits of every script (general category `Nd`), not just ASCII `0-9`.
The captured digit string is parsed with `parse::<i32>()` — which
accepts *only* ASCII digits, so a capture containing any other `Nd`
character fails exactly like an overflow — with `unwrap_or(-1)`, and the
result is compared against `args.len() as i32` (a truncating
`usize → i32` cast). -/

/-- The non-ASCII ranges of the Unicode `Nd` (decimal number) general
category (UCD 15.0), i.e. what the `regex` crate's `\d` matches beyond
`0-9`. Each pair is an inclusive code-point range. -/
def ndRangesNonAscii : List (Nat × Nat) :=
  [ (0x660, 0x669), (0x6F0, 0x6F9), (0x7C0, 0x7C9), (0x966, 0x96F),
    (0x9E6, 0x9EF), (0xA66, 0xA6F), (0xAE6, 0xAEF), (0xB66, 0xB6F),
    (0xBE6, 0xBEF), (0xC66, 0xC6F), (0xCE6, 0xCEF), (0xD66, 0xD6F),
    (0xDE6, 0xDEF), (0xE50, 0xE59), (0xED0, 0xED9), (0xF20, 0xF29),
    (0x1040, 0x1049), (0x1090, 0x1099), (0x17E0, 0x17E9),
    (0x1810, 0x1819), (0x1946, 0x194F), (0x19D0, 0x19D9),
    (0x1A80, 0x1A89), (0x1A90, 0x1A99), (0x1B50, 0x1B59),
    (0x1BB0, 0x1BB9), (0x1C40, 0x1C49), (0x1C50, 0x1C59),
    (0xA620, 0xA629), (0xA8D0, 0xA8D9), (0xA900, 0xA909),
    (0xA9D0, 0xA9D9), (0xA9F0, 0xA9F9), (0xAA50, 0xAA59),
    (0xABF0, 0xABF9), (0xFF10, 0xFF19), (0x104A0, 0x104A9),
    (0x10D30, 0x10D39), (0x11066, 0x1106F), (0x110F0, 0x110F9),
    (0x11136, 0x1113F), (0x111D0, 0x111D9), (0x112F0, 0x112F9),
    (0x11450, 0x11459), (0x114D0, 0x114D9), (0x11650, 0x11659),
    (0x116C0, 0x116C9), (0x11730, 0x11739), (0x118E0, 0x118E9),
    (0x11950, 0x11959), (0x11C50, 0x11C59), (0x11D50, 0x11D59),
    (0x11DA0, 0x11DA9), (0x11F50, 0x11F59), (0x16A60, 0x16A69),
    (0x16AC0, 0x16AC9), (0x16B50, 0x16B59), (0x1D7CE, 0x1D7FF),
    (0x1E140, 0x1E149), (0x1E2F0, 0x1E2F9), (0x1E4F0, 0x1E4F9),
    (0x1E950, 0x1E959), (0x1FBF0, 0x1FBF9) ]

/-- The `regex` crate's `\d` (Unicode `\p{Nd}`): ASCII `0-9` or a
code point in one of the non-ASCII `Nd` ranges. -/
def isUnicodeDigit (c : Char) : Bool :=
  c.isDigit ||
    ndRangesNonAscii.any (fun r => decide (r.1 ≤ c.toNat ∧ c.toNat ≤ r.2))

/-- Decimal value of an ASCII digit string. -/
def digitsToNat (ds : List Char) : Nat :=
  ds.foldl (fun acc c => acc * 10 + (c.toNat - 48)) 0

/-- Truncating `usize → i32` cast (`args.len() as i32`), two's complement. -/
def i32ofNat (n : Nat) : Int :=
  if n % 2 ^ 32 < 2 ^ 31 then ((n % 2 ^ 32 : Nat) : Int)
  else ((n % 2 ^ 32 : Nat) : Int) - 2 ^ 32

/-- `position_str.parse::<i32>().unwrap_or(-1)` (shell.rs line 58):
Rust's `parse::<i32>` accepts only non-empty ASCII digit strings within
the `i32` range; a capture containing a non-ASCII `\d` character, or one
whose value overflows, fails to parse and yields `-1`. -/
def parsePosI32 (ds : List Char) : Int :=
  if ds ≠ [] ∧ ds.all Char.isDigit ∧ digitsToNat ds ≤ 2147483647 then
    (digitsToNat ds : Int)
  else -1

/-- The replacement the closure at shell.rs lines 56–64 produces for a
captured digit string: `args[position]` when
`0 ≤ position < args.len() as i32`, the empty string otherwise. -/
def posReplacement (args : List (List Char)) (ds : List Char) : List Char :=
  let position := parsePosI32 ds
  if 0 ≤ position ∧ position < i32ofNat args.length then
    args.getD position.toNat []
  else
    []

/-- Scanner realising `POS_ARG_REGEX.replace_all`: state `none` means no
pending match, state `some ds` means a marker was read followed by the
`\d` (Unicode `Nd`) characters `ds` so far (regex matches need at least
one digit, so a marker with no following digit is emitted verbatim).
Greedy `\d+`, leftmost first — exactly the regex engine's behaviour on
this pattern. -/
def substPosArgsAux (marker : Char) (args : List (List Char)) :
    Option (List Char) → List Char → List Char
  | none, [] => []
  | some ds, [] => if ds.isEmpty then [marker] else posReplacement args ds
  | none, c :: rest =>
    if c = marker then substPosArgsAux marker args (some []) rest
    else c :: substPosArgsAux marker args none rest
  | some ds, c :: rest =>
    if isUnicodeDigit c then substPosArgsAux marker args (some (ds ++ [c])) rest
    else
      let flushed := if ds.isEmpty then [marker] else posReplacement args ds
      if c = marker then flushed ++ substPosArgsAux marker args (some []) rest
      else flushed ++ c :: substPosArgsAux marker args none rest

/-- `POS_ARG_REGEX.replace_all(cmd, …)` (shell.rs lines 55–65). -/
def substPosArgs (marker : Char) (args : List (List Char))
    (cmd : List Char) : List Char :=
  substPosArgsAux marker args none cmd

/-- The positional-argument marker `POS_ARG_REGEX` uses
(shell.rs lines 25–31): `'%'` on windows, `'$'` elsewhere. -/
def posMarker (windows : Bool) : Char :=
  if windows then '%' else '$'

/-- The `params` mapping as the shell extension reads it: `params.get("cmd")`
as a string when present, and the result of `as_bool()` on `params.get("trim")`
when present. -/
structure ShellParams where
  cmd : Option (List Char)
  trim : Option (Option Bool)

/-- Outcome of `Command::output`: captured stdout (already lossy-decoded,
as the claims never exercise invalid UTF-8) or a spawn failure. -/
inductive ExecResult where
  | ok (stdout : List Char)
  | err
deriving DecidableEq, Repr

/-- Unicode `White_Space`, the class `str::trim` strips: U+0009–U+000D,
U+0020, U+0085, U+00A0, U+1680, U+2000–U+200A, U+2028, U+2029, U+202F,
U+205F, U+3000. -/
def isUnicodeWhitespace (c : Char) : Bool :=
  decide ((0x9 ≤ c.toNat ∧ c.toNat ≤ 0xD) ∨ c.toNat = 0x20 ∨
    c.toNat = 0x85 ∨ c.toNat = 0xA0 ∨ c.toNat = 0x1680 ∨
    (0x2000 ≤ c.toNat ∧ c.toNat ≤ 0x200A) ∨ c.toNat = 0x2028 ∨
    c.toNat = 0x2029 ∨ c.toNat = 0x202F ∨ c.toNat = 0x205F ∨
    c.toNat = 0x3000)

/-- `str::trim`: strip leading and trailing Unicode whitespace. -/
def trimStr (s : List Char) : List Char :=
  ((s.dropWhile isUnicodeWhitespace).reverse.dropWhile
    isUnicodeWhitespace).reverse

/-- `ShellExtension::calculate` (shell.rs lines 46–96). `exec` stands for
`Command::output` applied to the substituted command through the platform
shell. Result: the extension's `Option<String>` plus whether `error!` was
hit (spawn failure). -/
def ShellExtension.calculate (windows : Bool) (params : ShellParams)
    (args : List (List Char)) (exec : List Char → ExecResult) :
    Option (List Char) × Bool :=
  match params.cmd with
  | none => (none, false)
  | some cmd0 =>
    let cmd := substPosArgs (posMarker windows) args cmd0
    match exec cmd with
    | ExecResult.ok stdout =>
      let out :=
        match params.trim with
        | some (some true) => trimStr stdout
        | _ => stdout
      (some out, false)
    | ExecResult.err => (none, true)

/-- The substitution the spec's words describe, for comparison with
`substPosArgs`: placeholders range over `$0..$9` (resp. `%0..%9`), i.e. a
marker followed by exactly one digit `d`, replaced by `args[d]` when in
range and the empty string otherwise; any further digit is left in place
as ordinary text. -/
def substPosArgsSingleDigit (marker : Char) (args : List (List Char)) :
    List Char → List Char
  | [] => []
  | [c] => [c]
  | c :: d :: rest =>
    if c = marker ∧ d.isDigit then
      (if d.toNat - 48 < args.length then args.getD (d.toNat - 48) []
       else []) ++ substPosArgsSingleDigit marker args rest
    else
      c :: substPosArgsSingleDigit marker args (d :: rest)

/-! ## Theorems -/

/-! ### Newline normalization (claim C3) -/

theorem hasCRLF_cons_ne {c : Char} (z : List Char) (hc : c ≠ '\r') :
    hasCRLF (c :: z) = hasCRLF z := by
  cases z with
  | nil => rfl
  | cons d r => simp [hasCRLF, hc]

theorem hasCRLF_cons_eq (c : Char) (z : List Char) :
    hasCRLF (c :: z) =
      (decide (c = '\r' ∧ z.head? = some '\n') || hasCRLF z) := by
  cases z with
  | nil => simp [hasCRLF]
  | cons d r => simp [hasCRLF]

theorem hasCRCRLF_tail (c : Char) (z : List Char)
    (h : hasCRCRLF (c :: z) = false) : hasCRCRLF z = false := by
  match z with
  | [] => rfl
  | [d] => rfl
  | [d, e] => rfl
  | d :: e :: f :: r =>
    simp only [hasCRCRLF, Bool.or_eq_false_iff] at h ⊢
    exact h.2

theorem replaceCRLF_head (d : Char) (rest : List Char) :
    (replaceCRLF (d :: rest)).head? =
      some (if d = '\r' ∧ rest.head? = some '\n' then '\n' else d) := by
  cases rest with
  | nil => simp [replaceCRLF]
  | cons e r =>
    by_cases hde : d = '\r' ∧ e = '\n'
    · simp [replaceCRLF, hde, hde.1, hde.2]
    · have : ¬(d = '\r' ∧ (e :: r).head? = some '\n') := by
        simpa using hde
      simp [replaceCRLF, hde, this]

theorem replaceCRLF_fixed (y : List Char) (h : hasCRLF y = false) :
    replaceCRLF y = y := by
  induction y using replaceCRLF.induct with
  | case1 => rfl
  | case2 c => rfl
  | case3 c d rest hcd ih =>
    simp [hasCRLF, hcd.1, hcd.2] at h
  | case4 c d rest hne ih =>
    simp only [hasCRLF, Bool.or_eq_false_iff, decide_eq_false_iff_not] at h
    simp [replaceCRLF, hne, ih h.2]

theorem replaceCRLF_no_crlf (x : List Char) (h : hasCRCRLF x = false) :
    hasCRLF (replaceCRLF x) = false := by
  induction x using replaceCRLF.induct with
  | case1 => rfl
  | case2 c => rfl
  | case3 c d rest hcd ih =>
    have hrest : hasCRCRLF rest = false :=
      hasCRCRLF_tail d rest (hasCRCRLF_tail c (d :: rest) h)
    rw [replaceCRLF]
    simp only [hcd, if_true, hcd.1, hcd.2, and_self, ite_true]
    rw [hasCRLF_cons_ne _ (by decide)]
    exact ih hrest
  | case4 c d rest hne ih =>
    have hd : hasCRCRLF (d :: rest) = false := hasCRCRLF_tail c (d :: rest) h
    have ihz : hasCRLF (replaceCRLF (d :: rest)) = false := ih hd
    rw [replaceCRLF, if_neg hne]
    rw [hasCRLF_cons_eq]
    rw [replaceCRLF_head]
    by_cases hc : c = '\r'
    · by_cases hdr : d = '\r' ∧ rest.head? = some '\n'
      · exfalso
        cases rest with
        | nil => simp at hdr
        | cons e r =>
          simp only [List.head?_cons, Option.some.injEq] at hdr
          simp [hasCRCRLF, hc, hdr.1, hdr.2] at h
      · have hdn : d ≠ '\n' := fun hdd => hne ⟨hc, hdd⟩
        simp [hdr, hdn, ihz]
    · simp [hc, ihz]

/-- C3: the claim that CRLF→LF normalization (engine.rs line 192) is
idempotent is false: on `"\r\r\n"` the first pass yields `"\r\n"`, which a
second pass rewrites to `"\n"`. -/
theorem normalize_idempotent_counterexample :
    replaceCRLF (replaceCRLF ('\r' :: '\r' :: '\n' :: [])) ≠
      replaceCRLF ('\r' :: '\r' :: '\n' :: []) := by decide

/-- C3 (amended): newline normalization as done in `on_match` — replacing
every `"\r\n"` with `"\n"` — is idempotent on every string that does not
contain the substring `"\r\r\n"`; on strings containing `"\r\r\n"` a single
pass can leave a fresh `"\r\n"` behind, so idempotence fails in general. -/
theorem normalize_idempotent_amended (x : List Char)
    (h : hasCRCRLF x = false) :
    replaceCRLF (replaceCRLF x) = replaceCRLF x :=
  replaceCRLF_fixed _ (replaceCRLF_no_crlf x h)

/-- Witness for C3 (amended) at the concrete input `"a\r\nb\n"`. -/
theorem normalize_idempotent_amended_witness :
    hasCRCRLF ('a' :: '\r' :: '\n' :: 'b' :: '\n' :: []) = false ∧
    replaceCRLF (replaceCRLF ('a' :: '\r' :: '\n' :: 'b' :: '\n' :: [])) =
      replaceCRLF ('a' :: '\r' :: '\n' :: 'b' :: '\n' :: []) :=
  ⟨by decide, normalize_idempotent_amended _ (by decide)⟩

/-! ### Self-echo guard (claim C4) -/

/-- C4: `check_last_action_and_set` (engine.rs lines 129–139) blocks —
returns `true` leaving `last_action_time` untouched — exactly when the
elapsed time since `last_action_time` is below `interval`; otherwise it
records `now` and returns `false`. Consequently two consecutive honored
actions (the second honored against the time the first recorded, clocks
non-decreasing) are at least `interval` milliseconds apart. -/
theorem check_last_action_and_set_spec (last now interval : Nat)
    (hmono : last ≤ now) :
    (now - last < interval →
      check_last_action_and_set last now interval = (true, last)) ∧
    (interval ≤ now - last →
      check_last_action_and_set last now interval = (false, now)) ∧
    (∀ t2, now ≤ t2 →
      (check_last_action_and_set now t2 interval).1 = false →
      interval ≤ t2 - now) := by
  refine ⟨fun hlt => ?_, fun hge => ?_, fun t2 h2 hok => ?_⟩
  · simp [check_last_action_and_set, hmono, hlt]
  · simp [check_last_action_and_set]
    omega
  · by_cases hblk : now ≤ t2 ∧ t2 - now < interval
    · simp [check_last_action_and_set, hblk] at hok
    · omega

/-- Witness for C4 at `last = 0`, `now = 500`, `interval = 300`,
second call at `t2 = 900`. -/
theorem check_last_action_and_set_spec_witness :
    check_last_action_and_set 0 500 300 = (false, 500) ∧
    (300 : Nat) ≤ 900 - 500 := by
  have h := check_last_action_and_set_spec 0 500 300 (by decide)
  exact ⟨h.2.1 (by decide), h.2.2 900 (by decide) (by decide)⟩

/-! ### Passive mode while disabled (claim C10) -/

/-- C10: when the active config's `enable_passive` is false, `on_passive`
performs no keyboard or clipboard operation (empty trace), but because the
self-echo guard at engine.rs line 297 runs before the `enable_passive`
gate at line 303 it still records `now` into `last_action_time` — so a
subsequent `on_match`, `on_enable_update` or `on_passive` arriving within
`action_noop_interval` milliseconds is suppressed. -/
theorem on_passive_disabled_updates_guard (active : Config)
    (noopInterval last now : Nat) (clip : Option (List Char))
    (rr : RenderResult) (hpass : active.enable_passive = false)
    (hmono : last ≤ now) (hfree : noopInterval ≤ now - last) :
    on_passive active noopInterval last now clip rr = ([], now) ∧
    (∀ t2, now ≤ t2 → t2 - now < noopInterval →
      (∀ a d m sep rr2 c2 os,
        on_match a d noopInterval now t2 m sep rr2 c2 os = ([], now)) ∧
      (∀ en st, on_enable_update en st noopInterval now t2 = (en, [], now)) ∧
      (∀ a2 c2 rr2, on_passive a2 noopInterval now t2 c2 rr2 = ([], now))) := by
  have hnb : ¬(last ≤ now ∧ now - last < noopInterval) := by omega
  constructor
  · simp [on_passive, check_last_action_and_set, hnb, hpass]
  · intro t2 h2 hlt
    refine ⟨fun a d m sep rr2 c2 os => ?_, fun en st => ?_,
            fun a2 c2 rr2 => ?_⟩
    · by_cases hact : a.enable_active
      · simp [on_match, check_last_action_and_set, hact, h2, hlt]
      · simp [on_match, hact]
    · simp [on_enable_update, check_last_action_and_set, h2, hlt]
    · simp [on_passive, check_last_action_and_set, h2, hlt]

/-- Witness for C10: passive call at `now = 500` with passive mode
disabled, then an `on_match` at `t2 = 600 < 500 + 300` is suppressed. -/
theorem on_passive_disabled_updates_guard_witness :
    on_passive ⟨BackendType.Inject, true, false, false, [], 300, 100⟩
      300 0 500 none RenderResult.Error = ([], 500) ∧
    on_match ⟨BackendType.Inject, true, true, false, [], 300, 100⟩
      ⟨BackendType.Inject, true, true, false, [], 300, 100⟩
      300 500 600 ⟨['a']⟩ none RenderResult.Error none true = ([], 500) := by
  have h := on_passive_disabled_updates_guard
    ⟨BackendType.Inject, true, false, false, [], 300, 100⟩
    300 0 500 none RenderResult.Error rfl (by decide) (by decide)
  exact ⟨h.1, (h.2 600 (by decide) (by decide)).1 _ _ _ _ _ _ _⟩

/-! ### Tray Toggle action (claim C1) -/

/-- C1: the claim fails on the code — `on_action_event` reaches the
`_ => {}` arm (engine.rs line 354) for `ActionType::Toggle`: at
`enabled = true` the flag is not flipped (it stays `true`, not `!true`)
and no effect — in particular no UI notification — is produced. -/
theorem on_action_event_toggle_counterexample :
    (on_action_event true ActionType.Toggle).1 ≠ (!true) ∧
    (on_action_event true ActionType.Toggle).2 = [] := by decide

/-- C1 (amended): `on_action_event` ignores the `Toggle` kind — the
enabled flag and the UI are untouched; the flip-and-notify behaviour lives
in `on_enable_update(status)`, which (when the self-echo guard does not
block) stores `status` into `enabled` and notifies the user. -/
theorem on_action_event_toggle_amended (enabled status : Bool)
    (noopInterval last now : Nat) (hmono : last ≤ now)
    (hfree : noopInterval ≤ now - last) :
    on_action_event enabled ActionType.Toggle = (enabled, []) ∧
    on_enable_update enabled status noopInterval last now =
      (status,
       [Effect.logInfo,
        Effect.notify (if status then "espanso enabled".toList
                       else "espanso disabled".toList)],
       now) := by
  have hnb : ¬(last ≤ now ∧ now - last < noopInterval) := by omega
  exact ⟨rfl, by simp [on_enable_update, check_last_action_and_set, hnb]⟩

/-- Witness for C1 (amended) at `enabled = true`, `status = false`,
guard free. -/
theorem on_action_event_toggle_amended_witness :
    on_action_event true ActionType.Toggle = (true, []) ∧
    on_enable_update true false 300 0 500 =
      (false, [Effect.logInfo, Effect.notify "espanso disabled".toList],
       500) := by
  have h := on_action_event_toggle_amended true false 300 0 500
    (by decide) (by decide)
  exact ⟨h.1, by simpa using h.2⟩

/-! ### Trigger deletion (claim C5) -/

/-- C5: every `on_match` that passes the `enable_active` gate and the
self-echo guard deletes `count_chars(m.trigger)` characters — plus one
when a trailing separator was consumed — and this deletion is the very
first effect, before anything derived from the render result. -/
theorem on_match_deletes_trigger (active dflt : Config)
    (noopInterval last now : Nat) (m : Match) (sep : Option Char)
    (rendered : RenderResult) (clip : Option (List Char)) (os : Bool)
    (hact : active.enable_active = true) (hmono : last ≤ now)
    (hfree : noopInterval ≤ now - last) :
    ∃ rest,
      (on_match active dflt noopInterval last now m sep rendered clip os).1 =
        Effect.deleteString
          (m.trigger.length + if sep.isSome then 1 else 0) :: rest := by
  have hnb : ¬(last ≤ now ∧ now - last < noopInterval) := by omega
  cases sep <;> cases rendered <;>
    simp [on_match, check_last_action_and_set, hnb, hact]

/-- Witness for C5: trigger `":hi"` with a trailing space separator —
four characters deleted first. -/
theorem on_match_deletes_trigger_witness :
    ∃ rest,
      (on_match ⟨BackendType.Inject, true, true, false, [], 300, 100⟩
        ⟨BackendType.Inject, true, true, false, [], 300, 100⟩
        300 0 500 ⟨':' :: 'h' :: 'i' :: []⟩ (some ' ')
        (RenderResult.Text ('o' :: 'k' :: [])) none true).1 =
      Effect.deleteString 4 :: rest := by
  have h := on_match_deletes_trigger
    ⟨BackendType.Inject, true, true, false, [], 300, 100⟩
    ⟨BackendType.Inject, true, true, false, [], 300, 100⟩
    300 0 500 ⟨':' :: 'h' :: 'i' :: []⟩ (some ' ')
    (RenderResult.Text ('o' :: 'k' :: [])) none true rfl (by decide)
    (by decide)
  simpa using h

/-! ### Render errors (claim C7) -/

/-- C7: the claim fails on the code — the trigger is deleted even when
rendering errors, because `delete_string` (engine.rs line 173) runs before
`render_match` (line 177): at a concrete input whose render result is
`Error`, the trace still contains the 2-character deletion. -/
theorem render_error_counterexample :
    (on_match ⟨BackendType.Inject, true, true, false, [], 300, 100⟩
        ⟨BackendType.Inject, true, true, false, [], 300, 100⟩
        300 0 500 ⟨'a' :: 'b' :: []⟩ none RenderResult.Error none true).1 =
      [Effect.deleteString 2, Effect.logError] ∧
    Effect.deleteString 2 ∈
      (on_match ⟨BackendType.Inject, true, true, false, [], 300, 100⟩
        ⟨BackendType.Inject, true, true, false, [], 300, 100⟩
        300 0 500 ⟨'a' :: 'b' :: []⟩ none RenderResult.Error none true).1 := by
  decide

/-- C7 (amended): when the renderer returns `Error` for a match that
passed the gates, the engine logs the error and abandons the expansion —
no injection and no clipboard operation occur — but the trigger is *not*
preserved: its deletion unconditionally precedes rendering, so the trace
is exactly the deletion followed by the error log. -/
theorem render_error_amended (active dflt : Config)
    (noopInterval last now : Nat) (m : Match) (sep : Option Char)
    (clip : Option (List Char)) (os : Bool)
    (hact : active.enable_active = true) (hmono : last ≤ now)
    (hfree : noopInterval ≤ now - last) :
    (on_match active dflt noopInterval last now m sep RenderResult.Error
        clip os).1 =
      [Effect.deleteString (m.trigger.length + if sep.isSome then 1 else 0),
       Effect.logError] := by
  have hnb : ¬(last ≤ now ∧ now - last < noopInterval) := by omega
  cases sep <;> simp [on_match, check_last_action_and_set, hnb, hact]

/-- Witness for C7 (amended) at trigger `"ab"`, no separator. -/
theorem render_error_amended_witness :
    (on_match ⟨BackendType.Clipboard, true, true, true, [], 300, 100⟩
        ⟨BackendType.Clipboard, true, true, true, [], 300, 100⟩
        300 0 500 ⟨'a' :: 'b' :: []⟩ none RenderResult.Error none true).1 =
      [Effect.deleteString 2, Effect.logError] := by
  have h := render_error_amended
    ⟨BackendType.Clipboard, true, true, true, [], 300, 100⟩
    ⟨BackendType.Clipboard, true, true, true, [], 300, 100⟩
    300 0 500 ⟨'a' :: 'b' :: []⟩ none none true rfl (by decide) (by decide)
  simpa using h

/-! ### Cursor hint (claim C2) -/

theorem findHint_le (ts : List Char) (i : Nat) (h : findHint ts = some i) :
    i + 3 ≤ ts.length := by
  induction ts using findHint.induct generalizing i with
  | case1 => simp [findHint] at h
  | case2 c => simp [findHint] at h
  | case3 c d => simp [findHint] at h
  | case4 c d e rest hcd =>
    rw [findHint, if_pos hcd] at h
    cases h
    simp
  | case5 c d e rest hne ih =>
    rw [findHint, if_neg hne] at h
    rcases Option.map_eq_some'.mp h with ⟨j, hj, hij⟩
    have := ih j hj
    simp only [List.length_cons] at this ⊢
    omega

theorem removeHint_length (ts : List Char) :
    (removeHint ts).length + 3 * countHint ts = ts.length := by
  induction ts using removeHint.induct with
  | case1 => rfl
  | case2 c => rfl
  | case3 c d => rfl
  | case4 c d e rest hcd ih =>
    rw [removeHint, if_pos hcd, countHint, if_pos hcd]
    simp only [List.length_cons]
    omega
  | case5 c d e rest hne ih =>
    rw [removeHint, if_neg hne, countHint, if_neg hne]
    simp only [List.length_cons] at ih ⊢
    omega

/-- C2: the claim fails on the code — with two hint occurrences in the
rendered text `"a$|$b$|$c"`, the injected string is `"abc"` (every
occurrence removed) but the rewind is
`total_size − char_index − 3 = 9 − 1 − 3 = 5` LEFT presses, not the
`3 − 1 = 2` characters that follow the first hint after `"$|$"` removal;
the full `on_match` trace shows `move_cursor_left(5)`. -/
theorem cursor_hint_counterexample :
    processCursorHint
        ('a' :: '$' :: '|' :: '$' :: 'b' :: '$' :: '|' :: '$' :: 'c' :: []) =
      ('a' :: 'b' :: 'c' :: [], some 5) ∧
    findHint ('a' :: '$' :: '|' :: '$' :: 'b' :: '$' :: '|' :: '$' :: 'c' :: [])
      = some 1 ∧
    (5 : Nat) ≠ ('a' :: 'b' :: 'c' :: [] : List Char).length - 1 ∧
    (on_match ⟨BackendType.Inject, true, true, false, [], 300, 100⟩
        ⟨BackendType.Inject, true, true, false, [], 300, 100⟩
        300 0 500 ⟨'x' :: []⟩ none
        (RenderResult.Text
          ('a' :: '$' :: '|' :: '$' :: 'b' :: '$' :: '|' :: '$' :: 'c' :: []))
        none true).1 =
      [Effect.deleteString 1, Effect.sendString ('a' :: 'b' :: 'c' :: []),
       Effect.moveCursorLeft 5] := by
  decide

/-- C2 (amended): for a rendered text containing `"$|$"`, `on_match`
injects the text with *every* occurrence removed, and passes
`total_size − char_index − 3` LEFT presses to `move_cursor_left`, where
`total_size` counts the chars *before* removal and `char_index` those
before the first hint; only when the hint occurs exactly once does this
equal the number of characters after the hint in the injected text. -/
theorem cursor_hint_amended (active dflt : Config)
    (noopInterval last now : Nat) (m : Match) (ts0 : List Char)
    (clip : Option (List Char)) (i : Nat)
    (hact : active.enable_active = true) (hmono : last ≤ now)
    (hfree : noopInterval ≤ now - last)
    (hback : active.backend = BackendType.Inject)
    (hfind : findHint (replaceCRLF ts0) = some i) :
    (on_match active dflt noopInterval last now m none
        (RenderResult.Text ts0) clip true).1 =
      [Effect.deleteString m.trigger.length,
       Effect.sendString (removeHint (replaceCRLF ts0)),
       Effect.moveCursorLeft ((replaceCRLF ts0).length - i - 3)] ∧
    (countHint (replaceCRLF ts0) = 1 →
      (replaceCRLF ts0).length - i - 3 =
        (removeHint (replaceCRLF ts0)).length - i) := by
  have hnb : ¬(last ≤ now ∧ now - last < noopInterval) := by omega
  constructor
  · simp [on_match, check_last_action_and_set, hnb, hact, hback,
          processCursorHint, hfind, injectEffects]
  · intro hcnt
    have h1 := removeHint_length (replaceCRLF ts0)
    have h2 := findHint_le _ _ hfind
    omega

/-- Witness for C2 (amended) at the rendered text `"a$|$bc"` (hint occurs
once): injected `"abc"`, rewind `6 − 1 − 3 = 2 = ` chars after the hint. -/
theorem cursor_hint_amended_witness :
    (on_match ⟨BackendType.Inject, true, true, false, [], 300, 100⟩
        ⟨BackendType.Inject, true, true, false, [], 300, 100⟩
        300 0 500 ⟨'x' :: []⟩ none
        (RenderResult.Text ('a' :: '$' :: '|' :: '$' :: 'b' :: 'c' :: []))
        none true).1 =
      [Effect.deleteString 1, Effect.sendString ('a' :: 'b' :: 'c' :: []),
       Effect.moveCursorLeft 2] ∧
    (2 : Nat) = ('a' :: 'b' :: 'c' :: [] : List Char).length - 1 := by
  have h := cursor_hint_amended
    ⟨BackendType.Inject, true, true, false, [], 300, 100⟩
    ⟨BackendType.Inject, true, true, false, [], 300, 100⟩
    300 0 500 ⟨'x' :: []⟩ ('a' :: '$' :: '|' :: '$' :: 'b' :: 'c' :: [])
    none 1 rfl (by decide) (by decide) rfl (by decide)
  constructor
  · have := h.1
    simpa using this
  · have := h.2 (by decide)
    simpa using this

/-! ### Clipboard preservation (claim C6) -/

theorem runClipboard_restore_shape (rewind : List Effect)
    (hrew : rewind = [] ∨ ∃ mv, rewind = [Effect.moveCursorLeft mv])
    (st : Option (List Char)) (cc : Nat) (ts p c : List Char) (d : Nat) :
    runClipboard st
      (Effect.deleteString cc :: Effect.getClipboard ::
        Effect.setClipboard ts :: Effect.triggerPaste p :: rewind ++
        [Effect.sleep d, Effect.setClipboard c]) = some c := by
  rcases hrew with rfl | ⟨mv, rfl⟩ <;> simp [runClipboard]

/-- C6: when the default config's `preserve_clipboard` is set and a
Clipboard-backend text expansion proceeds (gates passed, `get_clipboard()`
returning content `c`), the engine reads the old clipboard *before*
writing the payload and triggering the paste, and — after sleeping
`restore_clipboard_delay` ms — writes `c` back as the final clipboard
operation, so the clipboard state left by the trace equals the
pre-expansion content. -/
theorem on_match_clipboard_preserve (active dflt : Config)
    (noopInterval last now : Nat) (m : Match) (sep : Option Char)
    (ts0 c : List Char) (os : Bool)
    (hact : active.enable_active = true) (hmono : last ≤ now)
    (hfree : noopInterval ≤ now - last)
    (hback : active.backend = BackendType.Clipboard)
    (hpres : dflt.preserve_clipboard = true) :
    (∃ cc ts rewind,
      ((rewind = []) ∨ (∃ mv, rewind = [Effect.moveCursorLeft mv])) ∧
      (on_match active dflt noopInterval last now m sep
          (RenderResult.Text ts0) (some c) os).1 =
        Effect.deleteString cc :: Effect.getClipboard ::
          Effect.setClipboard ts ::
          Effect.triggerPaste active.paste_shortcut :: rewind ++
          [Effect.sleep active.restore_clipboard_delay,
           Effect.setClipboard c]) ∧
    runClipboard (some c)
      (on_match active dflt noopInterval last now m sep
        (RenderResult.Text ts0) (some c) os).1 = some c := by
  have hnb : ¬(last ≤ now ∧ now - last < noopInterval) := by omega
  have key : ∃ cc ts rewind,
      ((rewind = []) ∨ (∃ mv, rewind = [Effect.moveCursorLeft mv])) ∧
      (on_match active dflt noopInterval last now m sep
          (RenderResult.Text ts0) (some c) os).1 =
        Effect.deleteString cc :: Effect.getClipboard ::
          Effect.setClipboard ts ::
          Effect.triggerPaste active.paste_shortcut :: rewind ++
          [Effect.sleep active.restore_clipboard_delay,
           Effect.setClipboard c] := by
    cases sep with
    | none =>
      cases hf : findHint (replaceCRLF ts0) with
      | none =>
        refine ⟨m.trigger.length, replaceCRLF ts0, [], Or.inl rfl, ?_⟩
        simp [on_match, check_last_action_and_set, hnb, hact, hback, hpres,
              processCursorHint, hf,
              return_content_if_preserve_clipboard_is_enabled]
      | some i =>
        refine ⟨m.trigger.length, removeHint (replaceCRLF ts0),
          [Effect.moveCursorLeft ((replaceCRLF ts0).length - i - 3)],
          Or.inr ⟨_, rfl⟩, ?_⟩
        simp [on_match, check_last_action_and_set, hnb, hact, hback, hpres,
              processCursorHint, hf,
              return_content_if_preserve_clipboard_is_enabled]
    | some s =>
      cases hf : findHint (replaceCRLF
          (if s = '\r' then ts0 ++ ['\n'] else ts0 ++ [s])) with
      | none =>
        refine ⟨m.trigger.length + 1,
          replaceCRLF (if s = '\r' then ts0 ++ ['\n'] else ts0 ++ [s]), [],
          Or.inl rfl, ?_⟩
        simp [on_match, check_last_action_and_set, hnb, hact, hback, hpres,
              processCursorHint, hf,
              return_content_if_preserve_clipboard_is_enabled]
      | some i =>
        refine ⟨m.trigger.length + 1,
          removeHint (replaceCRLF (if s = '\r' then ts0 ++ ['\n']
            else ts0 ++ [s])),
          [Effect.moveCursorLeft
            ((replaceCRLF (if s = '\r' then ts0 ++ ['\n']
              else ts0 ++ [s])).length - i - 3)],
          Or.inr ⟨_, rfl⟩, ?_⟩
        simp [on_match, check_last_action_and_set, hnb, hact, hback, hpres,
              processCursorHint, hf,
              return_content_if_preserve_clipboard_is_enabled]
  refine ⟨key, ?_⟩
  rcases key with ⟨cc, ts, rewind, hrew, htr⟩
  rw [htr]
  exact runClipboard_restore_shape rewind hrew _ _ _ _ _ _

/-- Witness for C6: payload `"xy"`, saved clipboard `"OLD"`. -/
theorem on_match_clipboard_preserve_witness :
    runClipboard (some ('O' :: 'L' :: 'D' :: []))
      (on_match ⟨BackendType.Clipboard, true, true, false, 'p' :: [], 300, 50⟩
        ⟨BackendType.Clipboard, true, true, true, [], 300, 100⟩
        300 0 500 ⟨':' :: 'x' :: []⟩ none
        (RenderResult.Text ('x' :: 'y' :: []))
        (some ('O' :: 'L' :: 'D' :: [])) true).1 =
      some ('O' :: 'L' :: 'D' :: []) := by
  have h := on_match_clipboard_preserve
    ⟨BackendType.Clipboard, true, true, false, 'p' :: [], 300, 50⟩
    ⟨BackendType.Clipboard, true, true, true, [], 300, 100⟩
    300 0 500 ⟨':' :: 'x' :: []⟩ none ('x' :: 'y' :: [])
    ('O' :: 'L' :: 'D' :: []) true rfl (by decide) (by decide) rfl rfl
  exact h.2

/-! ### Which config controls clipboard preservation (claim C9) -/

/-- C9: whether the clipboard is saved (and hence restored) around a
Clipboard-backend or Image expansion is decided solely by the *default*
config's `preserve_clipboard`
(`self.config_manager.default_config().preserve_clipboard`, engine.rs
line 117): flipping the active config's `preserve_clipboard` leaves the
whole `on_match` outcome unchanged, while — for an expansion that reaches
the clipboard path — `get_clipboard` is called iff the default config's
flag is set. -/
theorem preserve_clipboard_from_default_config (active dflt : Config)
    (b : Bool) (noopInterval last now : Nat) (m : Match) (sep : Option Char)
    (rendered : RenderResult) (clip : Option (List Char)) (os : Bool)
    (hact : active.enable_active = true) (hmono : last ≤ now)
    (hfree : noopInterval ≤ now - last) :
    (on_match { active with preserve_clipboard := b } dflt noopInterval last
        now m sep rendered clip os =
      on_match active dflt noopInterval last now m sep rendered clip os) ∧
    (∀ ts0 p,
      (rendered = RenderResult.Text ts0 ∧
        active.backend = BackendType.Clipboard) ∨
        rendered = RenderResult.Image p →
      (Effect.getClipboard ∈
        (on_match active dflt noopInterval last now m sep rendered clip
          os).1 ↔
        dflt.preserve_clipboard = true)) := by
  have hnb : ¬(last ≤ now ∧ now - last < noopInterval) := by omega
  constructor
  · cases active
    rfl
  · rintro ts0 p (⟨rfl, hback⟩ | rfl)
    · cases hpc : dflt.preserve_clipboard with
      | true =>
        simp only [iff_true]
        rcases sep with _ | s <;>
          simp [on_match, check_last_action_and_set, hnb, hact, hback, hpc,
                return_content_if_preserve_clipboard_is_enabled]
      | false =>
        simp only [Bool.false_eq_true, iff_false]
        rcases sep with _ | s <;>
          simp only [on_match, check_last_action_and_set, hnb, hact, hback,
                hpc, return_content_if_preserve_clipboard_is_enabled,
                processCursorHint] <;>
          rcases findHint (replaceCRLF _) with _ | i <;>
          simp
    · cases hpc : dflt.preserve_clipboard with
      | true =>
        simp only [iff_true]
        rcases sep with _ | s <;>
          simp [on_match, check_last_action_and_set, hnb, hact, hpc,
                return_content_if_preserve_clipboard_is_enabled]
      | false =>
        simp only [Bool.false_eq_true, iff_false]
        rcases sep with _ | s <;>
          simp [on_match, check_last_action_and_set, hnb, hact, hpc,
                return_content_if_preserve_clipboard_is_enabled]

/-- Witness for C9: active config with `preserve_clipboard = false`,
default config with it `true` — flipping the active flag changes nothing,
and the clipboard is still saved. -/
theorem preserve_clipboard_from_default_config_witness :
    (on_match ⟨BackendType.Clipboard, true, true, true, [], 300, 100⟩
        ⟨BackendType.Clipboard, true, true, true, [], 300, 100⟩
        300 0 500 ⟨'a' :: []⟩ none (RenderResult.Text ('z' :: []))
        (some ('O' :: [])) true =
      on_match ⟨BackendType.Clipboard, true, true, false, [], 300, 100⟩
        ⟨BackendType.Clipboard, true, true, true, [], 300, 100⟩
        300 0 500 ⟨'a' :: []⟩ none (RenderResult.Text ('z' :: []))
        (some ('O' :: [])) true) ∧
    (Effect.getClipboard ∈
      (on_match ⟨BackendType.Clipboard, true, true, false, [], 300, 100⟩
        ⟨BackendType.Clipboard, true, true, true, [], 300, 100⟩
        300 0 500 ⟨'a' :: []⟩ none (RenderResult.Text ('z' :: []))
        (some ('O' :: [])) true).1 ↔
      (true : Bool) = true) := by
  have h := preserve_clipboard_from_default_config
    ⟨BackendType.Clipboard, true, true, false, [], 300, 100⟩
    ⟨BackendType.Clipboard, true, true, true, [], 300, 100⟩
    true 300 0 500 ⟨'a' :: []⟩ none (RenderResult.Text ('z' :: []))
    (some ('O' :: [])) true rfl (by decide) (by decide)
  exact ⟨h.1, h.2 ('z' :: []) [] (Or.inl ⟨rfl, rfl⟩)⟩

/-! ### Shell positional arguments (claim C8) -/

theorem substPosArgsAux_append_front (marker : Char) (args : List (List Char))
    (pre s : List Char) (hpre : marker ∉ pre) :
    substPosArgsAux marker args none (pre ++ s) =
      pre ++ substPosArgsAux marker args none s := by
  induction pre with
  | nil => rfl
  | cons c p ih =>
    have hc : ¬c = marker := fun hcm => hpre (hcm ▸ List.mem_cons_self c p)
    have hp : marker ∉ p := fun hm => hpre (List.mem_cons_of_mem c hm)
    simp [substPosArgsAux, hc, ih hp]

theorem isUnicodeDigit_of_isDigit (c : Char) (h : c.isDigit = true) :
    isUnicodeDigit c = true := by
  simp [isUnicodeDigit, h]

theorem isUnicodeDigit_eq_false_of_ascii (c : Char) (hlt : c.toNat < 128)
    (h : c.isDigit = false) : isUnicodeDigit c = false := by
  simp only [isUnicodeDigit, h, Bool.false_or]
  simp only [ndRangesNonAscii, List.any_cons, List.any_nil, Bool.or_false,
    Bool.or_eq_false_iff, decide_eq_false_iff_not, not_and, not_le]
  omega

theorem substPosArgsAux_digits (marker : Char) (args : List (List Char))
    (ds : List Char) (hdig : ∀ d ∈ ds, isUnicodeDigit d = true) :
    ∀ acc rest, substPosArgsAux marker args (some acc) (ds ++ rest) =
      substPosArgsAux marker args (some (acc ++ ds)) rest := by
  induction ds with
  | nil => intro acc rest; simp
  | cons d ds ih =>
    intro acc rest
    have hd : isUnicodeDigit d = true := hdig d (List.mem_cons_self d ds)
    have hds : ∀ x ∈ ds, isUnicodeDigit x = true :=
      fun x hx => hdig x (List.mem_cons_of_mem d hx)
    simp only [List.cons_append, substPosArgsAux, hd, if_true]
    rw [List.append_eq, ih hds]
    simp

theorem substPosArgsAux_flush (marker : Char) (args : List (List Char))
    (ds rest : List Char) (hds : ds ≠ [])
    (hrest : (rest.take 1).all (fun d => !(isUnicodeDigit d)) = true) :
    substPosArgsAux marker args (some ds) rest =
      posReplacement args ds ++ substPosArgsAux marker args none rest := by
  have hne : ds.isEmpty = false := by
    cases ds with
    | nil => exact absurd rfl hds
    | cons x xs => rfl
  cases rest with
  | nil => simp [substPosArgsAux, hne]
  | cons c r =>
    have hcd : isUnicodeDigit c = false := by
      simpa using hrest
    by_cases hc : c = marker
    · subst hc
      simp [substPosArgsAux, hcd, hne]
    · simp [substPosArgsAux, hcd, hne, hc]

theorem substPosArgs_multidigit (marker : Char) (args : List (List Char))
    (pre ds rest : List Char) (hpre : marker ∉ pre) (hds : ds ≠ [])
    (hdig : ∀ d ∈ ds, isUnicodeDigit d = true)
    (hrest : (rest.take 1).all (fun d => !(isUnicodeDigit d)) = true) :
    substPosArgs marker args (pre ++ marker :: (ds ++ rest)) =
      pre ++ posReplacement args ds ++ substPosArgs marker args rest := by
  unfold substPosArgs
  rw [substPosArgsAux_append_front marker args pre _ hpre]
  have h1 : substPosArgsAux marker args none (marker :: (ds ++ rest)) =
      substPosArgsAux marker args (some []) (ds ++ rest) := by
    simp [substPosArgsAux]
  rw [h1, substPosArgsAux_digits marker args ds hdig [] rest]
  rw [List.nil_append]
  rw [substPosArgsAux_flush marker args ds rest hds hrest]
  simp

/-- C8: the claim fails on the code — `POS_ARG_REGEX` is `\$(\d+)` (resp.
`%(\d+)`) with `\d` Unicode-aware, not `$0..$9`: in `"$12"` the *whole*
digit run is one placeholder. With `args = ["a","b"]` the code substitutes
the empty string (position 12 out of range) where the claim's `$0..$9`
reading yields `args[1] ++ "2" = "b2"`; with thirteen arguments the code
substitutes `args[12] = "m"`; and in `"$1٣"` (U+0663, an `Nd` digit) the
run `"1٣"` is one placeholder whose `i32` parse fails, yielding the empty
string where the claim's reading gives `args[1] ++ "٣"`. -/
theorem shell_pos_args_counterexample :
    substPosArgs '$' (('a' :: []) :: ('b' :: []) :: [])
        ('$' :: '1' :: '2' :: []) = [] ∧
    substPosArgsSingleDigit '$' (('a' :: []) :: ('b' :: []) :: [])
        ('$' :: '1' :: '2' :: []) = 'b' :: '2' :: [] ∧
    ([] : List Char) ≠ 'b' :: '2' :: [] ∧
    substPosArgs '$'
        (('a' :: []) :: ('b' :: []) :: ('c' :: []) :: ('d' :: []) ::
         ('e' :: []) :: ('f' :: []) :: ('g' :: []) :: ('h' :: []) ::
         ('i' :: []) :: ('j' :: []) :: ('k' :: []) :: ('l' :: []) ::
         ('m' :: []) :: [])
        ('$' :: '1' :: '2' :: []) = 'm' :: [] ∧
    substPosArgs '$' (('a' :: 'a' :: []) :: ('b' :: 'b' :: []) :: [])
        ('e' :: ' ' :: '$' :: '1' :: '٣' :: []) = 'e' :: ' ' :: [] ∧
    substPosArgsSingleDigit '$'
        (('a' :: 'a' :: []) :: ('b' :: 'b' :: []) :: [])
        ('e' :: ' ' :: '$' :: '1' :: '٣' :: []) =
      'e' :: ' ' :: 'b' :: 'b' :: '٣' :: [] := by
  decide

/-- C8 (amended): `shell.calculate` substitutes each positional
placeholder — a marker (`$` on unix-like, `%` on windows-like platforms)
followed by one or more `\d` digits, the run taken greedily — with
`args[N]` when the run parses as an in-bounds `i32` value `N` (Rust's
parser accepts only ASCII digits, so a run containing a non-ASCII `Nd`
digit, like an overflowing one, acts as out-of-range) and with the empty
string otherwise, before handing the command to the shell; on process
spawn failure it logs the error and returns none. Stated here for
placeholders made of ASCII digits delimited by an ASCII non-digit (or the
end), the reading on which every Unicode table version agrees. -/
theorem shell_calculate_amended (windows : Bool) (args : List (List Char))
    (pre ds rest : List Char) (trim : Option (Option Bool))
    (exec : List Char → ExecResult)
    (hpre : posMarker windows ∉ pre) (hds : ds ≠ [])
    (hdig : ∀ d ∈ ds, d.isDigit = true)
    (hrest : (rest.take 1).all
      (fun c => decide (c.toNat < 128) && !c.isDigit) = true) :
    (substPosArgs (posMarker windows) args
        (pre ++ posMarker windows :: (ds ++ rest)) =
      pre ++ posReplacement args ds ++
        substPosArgs (posMarker windows) args rest) ∧
    (digitsToNat ds < args.length → args.length ≤ 2147483647 →
      posReplacement args ds = args.getD (digitsToNat ds) []) ∧
    (args.length ≤ digitsToNat ds → posReplacement args ds = []) ∧
    (exec (substPosArgs (posMarker windows) args
        (pre ++ posMarker windows :: (ds ++ rest))) = ExecResult.err →
      ShellExtension.calculate windows
        ⟨some (pre ++ posMarker windows :: (ds ++ rest)), trim⟩ args exec =
        (none, true)) := by
  have hdigU : ∀ d ∈ ds, isUnicodeDigit d = true :=
    fun d hd => isUnicodeDigit_of_isDigit d (hdig d hd)
  have hrestU : (rest.take 1).all (fun d => !(isUnicodeDigit d)) = true := by
    cases rest with
    | nil => rfl
    | cons c r =>
      simp only [List.take_succ_cons, List.take_zero, List.all_cons,
        List.all_nil, Bool.and_true, Bool.and_eq_true, decide_eq_true_eq,
        Bool.not_eq_eq_eq_not, Bool.not_true] at hrest ⊢
      exact isUnicodeDigit_eq_false_of_ascii c hrest.1 hrest.2
  have hall : ds.all Char.isDigit = true := by
    rw [List.all_eq_true]
    intro x hx
    simp [hdig x hx]
  refine ⟨substPosArgs_multidigit _ _ _ _ _ hpre hds hdigU hrestU,
    fun hlt hmax => ?_, fun hge => ?_, fun herr => ?_⟩
  · have hfit : digitsToNat ds ≤ 2147483647 := by omega
    have hparse : parsePosI32 ds = (digitsToNat ds : Int) := by
      unfold parsePosI32
      rw [if_pos ⟨hds, hall, hfit⟩]
    have hlen : args.length % 2 ^ 32 = args.length :=
      Nat.mod_eq_of_lt (by omega)
    have hsmall : args.length < 2 ^ 31 := by omega
    simp only [posReplacement, hparse, i32ofNat, hlen, hsmall, if_true]
    rw [if_pos]
    · simp
    · refine ⟨Int.ofNat_nonneg _, ?_⟩
      exact_mod_cast hlt
  · by_cases hfit : digitsToNat ds ≤ 2147483647
    · have hparse : parsePosI32 ds = (digitsToNat ds : Int) := by
        unfold parsePosI32
        rw [if_pos ⟨hds, hall, hfit⟩]
      simp only [posReplacement, hparse, i32ofNat]
      rw [if_neg]
      rintro ⟨-, hlt2⟩
      have hmodle : args.length % 2 ^ 32 ≤ args.length := Nat.mod_le _ _
      by_cases hs : args.length % 2 ^ 32 < 2 ^ 31
      · rw [if_pos hs] at hlt2
        have : (digitsToNat ds : Int) < (args.length : Int) := by
          calc (digitsToNat ds : Int) < ((args.length % 2 ^ 32 : Nat) : Int) :=
                hlt2
            _ ≤ (args.length : Int) := by exact_mod_cast hmodle
        omega
      · rw [if_neg hs] at hlt2
        have hneg : ((args.length % 2 ^ 32 : Nat) : Int) - 2 ^ 32 < 0 := by
          have : (args.length % 2 ^ 32 : Nat) < 2 ^ 32 :=
            Nat.mod_lt _ (by norm_num)
          omega
        have : (0 : Int) ≤ (digitsToNat ds : Int) := Int.ofNat_nonneg _
        omega
    · have hparse : parsePosI32 ds = -1 := by
        unfold parsePosI32
        rw [if_neg (fun hc => hfit hc.2.2)]
      simp only [posReplacement, hparse]
      rw [if_neg]
      rintro ⟨h0, -⟩
      omega
  · simp only [ShellExtension.calculate, substPosArgs] at herr ⊢
    rw [herr]

/-- Witness for C8 (amended): unix marker, `cmd = "e $1 x"`,
`args = ["aa","bb"]`, spawning fails. -/
theorem shell_calculate_amended_witness :
    (substPosArgs '$' (('a' :: 'a' :: []) :: ('b' :: 'b' :: []) :: [])
        ('e' :: ' ' :: '$' :: '1' :: ' ' :: 'x' :: []) =
      'e' :: ' ' :: 'b' :: 'b' :: ' ' :: 'x' :: []) ∧
    ShellExtension.calculate false
        ⟨some ('e' :: ' ' :: '$' :: '1' :: ' ' :: 'x' :: []), none⟩
        (('a' :: 'a' :: []) :: ('b' :: 'b' :: []) :: [])
        (fun _ => ExecResult.err) =
      (none, true) := by
  have h := shell_calculate_amended false
    (('a' :: 'a' :: []) :: ('b' :: 'b' :: []) :: [])
    ('e' :: ' ' :: []) ('1' :: []) (' ' :: 'x' :: []) none
    (fun _ => ExecResult.err) (by decide) (by decide) (by decide) (by decide)
  refine ⟨?_, ?_⟩
  · have h1 := h.1
    have h2 := h.2.1 (by decide) (by decide)
    rw [h2] at h1
    simpa using h1
  · have h4 := h.2.2.2 rfl
    simpa using h4

end Espanso
